import Mathlib

/-!
Verification development for the test-dashboard server (`src/backend/server.js`).

The stateful progress parser, result summarizer, history store, and
orchestration of `runTestsForProject` are embedded as executable Lean
definitions.  JavaScript numbers holding test counts are modelled as `Nat`
(they only ever hold non-negative integers obtained from `parseInt` of digit
runs or additions of such), except the derived `passed` counter which the
source computes by subtraction and which can go negative, hence `Int`.
Strings are modelled as `List Char`; the JavaScript regular expressions used
by the parser are translated into explicit scanning functions with the same
leftmost-match semantics (all the character classes involved are disjoint, so
the regexes are backtracking-free and the translation is direct).
-/

namespace TD

/-- ASCII decimal digit, JS regex class `\d`. -/
def isDigit09 (c : Char) : Bool := '0' ≤ c && c ≤ '9'

/-- ASCII letter, JS regex class `[a-zA-Z]`. -/
def isAsciiLetter (c : Char) : Bool := ('a' ≤ c && c ≤ 'z') || ('A' ≤ c && c ≤ 'Z')

/-- JS regex class `\s`: ASCII whitespace plus the Unicode space characters. -/
def isJsSpace (c : Char) : Bool :=
  c = ' ' || c = '\t' || c = '\n' || c = '\r' || c = '\x0b' || c = '\x0c' ||
  c.toNat = 0xa0 || c.toNat = 0x1680 || (0x2000 ≤ c.toNat && c.toNat ≤ 0x200a) ||
  c.toNat = 0x2028 || c.toNat = 0x2029 || c.toNat = 0x202f || c.toNat = 0x205f ||
  c.toNat = 0x3000 || c.toNat = 0xfeff

/-- `parseInt` on a non-empty run of decimal digits. -/
def digitsToNat (ds : List Char) : Nat :=
  ds.foldl (fun a c => a * 10 + (c.toNat - 48)) 0

/-- ASCII-only lowering, for the case-insensitive matches of the parser. -/
def lowerAscii (c : Char) : Char :=
  if 'A' ≤ c && c ≤ 'Z' then Char.ofNat (c.toNat + 32) else c

/-- Length of the escape-sequence match of
`/\x1b\[[0-9;]*[a-zA-Z]|\[\d+[A-Za-z]/` at the head of the list, if any.
The first alternative is tried before the second, as in the source regex;
both are backtracking-free since their character classes are disjoint. -/
def ansiMatchLen (cs : List Char) : Option Nat :=
  match cs with
  | '\x1b' :: '[' :: r2 =>
    (match r2.dropWhile (fun d => isDigit09 d || d = ';') with
     | l :: _ =>
       if isAsciiLetter l then
         some (2 + (r2.takeWhile (fun d => isDigit09 d || d = ';')).length + 1)
       else none
     | [] => none)
  | '[' :: r1 =>
    (match r1.dropWhile isDigit09 with
     | l :: _ =>
       if r1.takeWhile isDigit09 ≠ [] && isAsciiLetter l then
         some (1 + (r1.takeWhile isDigit09).length + 1)
       else none
     | [] => none)
  | _ => none

/-- Scanning worker for `stripAnsi`; the fuel is a recursion bound.  Every
step consumes at least one character (a matched span has length at least 3,
a non-match advances by one), so fuel equal to the list length is always
sufficient and the zero-fuel arm is unreachable for the wrapper below. -/
def stripAnsiGo : Nat → List Char → List Char
  | 0, cs => cs
  | fuel + 1, cs =>
    match cs with
    | [] => []
    | c :: rest =>
      match ansiMatchLen (c :: rest) with
      | some k => stripAnsiGo fuel ((c :: rest).drop k)
      | none => c :: stripAnsiGo fuel rest

/-- Strip of terminal escape sequences, `server.js:452`:
`line.replace(/\x1b\[[0-9;]*[a-zA-Z]|\[\d+[A-Za-z]/g, '')`.
Global replace: at each position the alternation is tried; on a match the
matched span is dropped and scanning resumes after it, otherwise the
character is kept and scanning advances by one. -/
def stripAnsi (cs : List Char) : List Char := stripAnsiGo cs.length cs

/-- Anchored failure marker `server.js:456`: `/^\s*(\d+)\)\s+\[/`,
returning the captured number. -/
def failureNum (cs : List Char) : Option Nat :=
  let cs1 := cs.dropWhile isJsSpace
  let ds := cs1.takeWhile isDigit09
  if ds = [] then none
  else
    match cs1.dropWhile isDigit09 with
    | ')' :: r2 =>
      match r2 with
      | c :: _ =>
        if isJsSpace c then
          match r2.dropWhile isJsSpace with
          | '[' :: _ => some (digitsToNat ds)
          | _ => none
        else none
      | [] => none
    | _ => none

/-- One attempt of `/(\d+)\s+skipped/i` at the start of the list. -/
def aggSkipAt (cs : List Char) : Option Nat :=
  let ds := cs.takeWhile isDigit09
  if ds = [] then none
  else
    match cs.dropWhile isDigit09 with
    | c :: r =>
      if isJsSpace c then
        if "skipped".data.isPrefixOf (((c :: r).dropWhile isJsSpace).map lowerAscii) then
          some (digitsToNat ds)
        else none
      else none
    | [] => none

/-- Searching match of `/(\d+)\s+skipped/i` (`server.js:472`), leftmost
occurrence, returning the captured count. -/
def aggSkipNum : List Char → Option Nat
  | [] => none
  | c :: rest =>
    match aggSkipAt (c :: rest) with
    | some n => some n
    | none => aggSkipNum rest

/-- One attempt of `/\[(\d+)\/(\d+)\]/` at the start of the list. -/
def progAt (cs : List Char) : Option (Nat × Nat) :=
  match cs with
  | '[' :: r1 =>
    let d1 := r1.takeWhile isDigit09
    if d1 = [] then none
    else
      match r1.dropWhile isDigit09 with
      | '/' :: r2 =>
        let d2 := r2.takeWhile isDigit09
        if d2 = [] then none
        else
          match r2.dropWhile isDigit09 with
          | ']' :: _ => some (digitsToNat d1, digitsToNat d2)
          | _ => none
      | _ => none
  | _ => none

/-- Searching match of `/\[(\d+)\/(\d+)\]/` (`server.js:486` and
`server.js:502`), leftmost occurrence, both captures.  The source matches the
one-capture variant `/\[(\d+)\/\d+\]/` for `skipProgressMatch`; it matches at
exactly the same places, so its capture is the first component. -/
def progressPair : List Char → Option (Nat × Nat)
  | [] => none
  | c :: rest =>
    match progAt (c :: rest) with
    | some p => some p
    | none => progressPair rest

/-- One attempt of `/\[\d+\/\d+\]\s*-\s+\[/` at the start of the list. -/
def dashSkipAt (cs : List Char) : Bool :=
  match cs with
  | '[' :: r1 =>
    if r1.takeWhile isDigit09 = [] then false
    else
      match r1.dropWhile isDigit09 with
      | '/' :: r2 =>
        if r2.takeWhile isDigit09 = [] then false
        else
          match r2.dropWhile isDigit09 with
          | ']' :: r3 =>
            match r3.dropWhile isJsSpace with
            | '-' :: r4 =>
              match r4 with
              | c :: _ =>
                isJsSpace c &&
                  (match r4.dropWhile isJsSpace with
                   | '[' :: _ => true
                   | _ => false)
              | [] => false
            | _ => false
          | _ => false
      | _ => false
  | _ => false

/-- Searching match of `/\[\d+\/\d+\]\s*-\s+\[/` (`server.js:487`). -/
def dashSkipPat : List Char → Bool
  | [] => false
  | c :: rest => dashSkipAt (c :: rest) || dashSkipPat rest

/-- JS regex `.` (no `s` flag): anything but a line terminator. -/
def isRegexDot (c : Char) : Bool :=
  !(c = '\n' || c = '\r' || c.toNat = 0x2028 || c.toNat = 0x2029)

/-- Scan for `\]\s+›` reachable through `.*` characters only. -/
def closeArrowScan : List Char → Bool
  | [] => false
  | c :: r =>
    ((c = ']') &&
      (match r with
       | s :: _ =>
         isJsSpace s &&
           (match r.dropWhile isJsSpace with
            | '›' :: _ => true
            | _ => false)
       | [] => false)) ||
    (isRegexDot c && closeArrowScan r)

/-- Anchored match of `/^\s*-\s+\[.*\]\s+›/` (`server.js:488`). -/
def dashBracketPat (cs : List Char) : Bool :=
  match cs.dropWhile isJsSpace with
  | '-' :: r2 =>
    (match r2 with
     | c :: _ =>
       isJsSpace c &&
         (match r2.dropWhile isJsSpace with
          | '[' :: r3 => closeArrowScan r3
          | _ => false)
     | [] => false)
  | _ => false

/-- `cleanLine.toLowerCase().includes('skipped')` (`server.js:489`),
restricted to ASCII case folding. -/
def includesSkipped : List Char → Bool
  | [] => false
  | c :: rest =>
    "skipped".data.isPrefixOf ((c :: rest).map lowerAscii) || includesSkipped rest

/-- The `isSkipLine` classifier of `server.js:487-489`. -/
def isSkipLine (cs : List Char) : Bool :=
  dashSkipPat cs || dashBracketPat cs ||
    ((progressPair cs).isSome && includesSkipped cs)

/-- The mutable `progress` object of `server.js:425`.  `passed` is computed
by subtraction and can go negative, hence `Int`. -/
structure Progress where
  passed : Int
  failed : Nat
  skipped : Nat
  completed : Nat
deriving DecidableEq, Repr

/-- Progress counters plus the `seenSkippedTests` dedupe set
(`server.js:426`); the JS `Set` is modelled as its insertion-ordered element
list (all distinct, inserted only when absent), whose length is the `size`. -/
structure ParserState where
  progress : Progress
  seenSkippedTests : List Nat
deriving DecidableEq, Repr

/-- `{ passed: 0, failed: 0, skipped: 0, completed: 0 }`, empty dedupe set. -/
def initParserState : ParserState := ⟨⟨0, 0, 0, 0⟩, []⟩

/-- Failure-marker branch, `server.js:456-466`. -/
def stepFailure (st : ParserState) (clean : List Char) : ParserState :=
  match failureNum clean with
  | some n =>
    if st.progress.failed < n then
      { st with progress :=
        { st.progress with
            failed := n
            passed := (st.progress.completed : Int) - (n : Int) -
              (st.progress.skipped : Int) } }
    else st
  | none => st

/-- Aggregate-skip branch, `server.js:472-481`. -/
def stepAggSkip (st : ParserState) (clean : List Char) : ParserState :=
  match aggSkipNum clean with
  | some n =>
    if st.progress.skipped < n then
      { st with progress :=
        { st.progress with
            skipped := n
            passed := (st.progress.completed : Int) - (st.progress.failed : Int) -
              (n : Int) } }
    else st
  | none => st

/-- Individual-skip branch, `server.js:486-499`. -/
def stepIndivSkip (st : ParserState) (clean : List Char) : ParserState :=
  if isSkipLine clean then
    match progressPair clean with
    | some (tn, _) =>
      if tn ∈ st.seenSkippedTests then st
      else
        let seen := st.seenSkippedTests ++ [tn]
        { progress :=
            { st.progress with
                skipped := seen.length
                passed := (st.progress.completed : Int) - (st.progress.failed : Int) -
                  (seen.length : Int) }
          seenSkippedTests := seen }
    | none => st
  else st

/-- Progress-marker branch, `server.js:502-515`. -/
def stepProgress (st : ParserState) (clean : List Char) : ParserState :=
  match progressPair clean with
  | some (cur, _total) =>
    if st.progress.completed < cur then
      { st with progress :=
        { st.progress with
            completed := cur
            passed := (cur : Int) - (st.progress.failed : Int) -
              (st.progress.skipped : Int) } }
    else st
  | none => st

/-- The body of the `for (const line of lines)` loop, `server.js:450-516`:
the four detection branches in source order, on the ANSI-stripped line. -/
def processCleanLine (st : ParserState) (clean : List Char) : ParserState :=
  stepProgress (stepIndivSkip (stepAggSkip (stepFailure st clean) clean) clean) clean

/-- Processing of one raw line: strip escapes, then the four branches. -/
def processLine (st : ParserState) (line : List Char) : ParserState :=
  processCleanLine st (stripAnsi line)

/-- `String.prototype.split('\n')` on a character list; always non-empty. -/
def splitNl : List Char → List (List Char)
  | [] => [[]]
  | c :: rest =>
    if c = '\n' then [] :: splitNl rest
    else
      match splitNl rest with
      | h :: t => (c :: h) :: t
      | [] => [[c]]

/-- The stdout `data` handler, `server.js:441-448`: append the chunk to the
line buffer, split on newlines, keep the trailing incomplete line buffered
and run the parser on each complete line. -/
def feedChunk : ParserState × List Char → List Char → ParserState × List Char
  | (st, buf), chunk =>
    let parts := splitNl (buf ++ chunk)
    (parts.dropLast.foldl processLine st, parts.getLastD [])

/-! ### Result summarizer (`server.js:538-611`) -/

/-- One test attempt in the Playwright JSON report; only `status` is read. -/
structure TDTestResult where
  status : String
deriving DecidableEq, Repr

/-- A test in the report; the code reads `test.results?.[0]?.status`. -/
structure PWTest where
  results : List TDTestResult
deriving DecidableEq, Repr

/-- A spec in the report; the code reads `spec.tests`. -/
structure PWSpec where
  tests : List PWTest
deriving DecidableEq, Repr

/-- A suite in the report: specs plus nested suites (arbitrary depth). -/
inductive PWSuite where
  | mk : List PWSpec → List PWSuite → PWSuite

/-- Playwright's top-level `stats` block; a field is `some n` exactly when it
is present with a numeric value, mirroring the
`typeof results.stats.expected === 'number'` check and the `|| 0` defaults. -/
structure PWStats where
  expected : Option Nat
  unexpected : Option Nat
  skipped : Option Nat
deriving DecidableEq, Repr

/-- The parsed (or synthesized) report object, with the fields the
summarizer reads: `stats`, `suites`, `errors`. -/
structure Report where
  stats : Option PWStats
  suites : List PWSuite
  errors : List (List Char)

/-- The final stats record built by the summarizer. -/
structure Stats where
  total : Nat
  passed : Nat
  failed : Nat
  skipped : Nat
  duration : Nat
deriving DecidableEq, Repr

/-- `test.results?.[0]?.status || 'unknown'` (`server.js:596`); the `||`
also replaces an empty status string. -/
def statusOfTest (t : PWTest) : String :=
  match t.results.head? with
  | some r => if r.status = "" then "unknown" else r.status
  | none => "unknown"

/-- The per-test body of `countResults` (`server.js:594-604`). -/
def countTest (s : Stats) (t : PWTest) : Stats :=
  let s := { s with total := s.total + 1 }
  let st := statusOfTest t
  if st = "passed" || st = "expected" then { s with passed := s.passed + 1 }
  else if st = "failed" || st = "unexpected" then { s with failed := s.failed + 1 }
  else if st = "skipped" then { s with skipped := s.skipped + 1 }
  else s

/-- The per-spec loop of `countResults` (`server.js:593`). -/
def countSpec (s : Stats) (sp : PWSpec) : Stats :=
  sp.tests.foldl countTest s

/-- The recursive `countResults` walk (`server.js:591-608`): for each suite,
count its specs, then recurse into its nested suites, then continue. -/
def countSuites : List PWSuite → Stats → Stats
  | [], acc => acc
  | PWSuite.mk specs subs :: rest, acc =>
    countSuites rest (countSuites subs (specs.foldl countSpec acc))

/-- Stats derivation (`server.js:569-611`): trust the report's own summary
when `stats.expected` is a number, otherwise count leaf results. -/
def deriveStats (r : Report) (duration : Nat) : Stats :=
  match r.stats with
  | some ps =>
    (match ps.expected with
     | some e =>
       { total := e + ps.unexpected.getD 0 + ps.skipped.getD 0
         passed := e
         failed := ps.unexpected.getD 0
         skipped := ps.skipped.getD 0
         duration := duration }
     | none => countSuites r.suites ⟨0, 0, 0, 0, duration⟩)
  | none => countSuites r.suites ⟨0, 0, 0, 0, duration⟩

/-- `stdout.lastIndexOf('\n{')` (`server.js:542`): the suffix starting just
after the last newline that is immediately followed by `{`, i.e. the
`substring(jsonStart + 1)` the code parses. -/
def afterLastNlBrace : List Char → Option (List Char)
  | [] => none
  | c :: rest =>
    match afterLastNlBrace rest with
    | some r => some r
    | none =>
      if c = '\n' then
        (match rest with
         | '{' :: _ => some rest
         | _ => none)
      else none

/-- `stdout.indexOf('{')` fallback (`server.js:548-550`): the suffix from the
first `{`. -/
def fromFirstBrace : List Char → Option (List Char)
  | [] => none
  | '{' :: rest => some ('{' :: rest)
  | _ :: rest => fromFirstBrace rest

/-- Candidate JSON text selection of the `try` block (`server.js:541-553`). -/
def findJsonCandidate (stdout : List Char) : Option (List Char) :=
  match afterLastNlBrace stdout with
  | some r => some r
  | none => fromFirstBrace stdout

/-- The whole `try` block as a value: `JSON.parse` is a platform primitive,
abstracted as an oracle `p`; the result is `none` exactly when the block
throws (no `{` found, or the parse of the selected candidate fails). -/
def parseAttempt (p : List Char → Option Report) (stdout : List Char) : Option Report :=
  (findJsonCandidate stdout).bind p

/-- The synthesized report of the `catch` branch (`server.js:557-561`):
empty suites, one error holding `stdout.substring(0, 500)` with the fixed
message substituted when that prefix is empty (the `||`). -/
def fallbackReport (stdout : List Char) : Report :=
  { stats := none
    suites := []
    errors :=
      [if stdout.take 500 = [] then "Failed to parse test output".data
       else stdout.take 500] }

/-- `results` after the try/catch (`server.js:539-562`). -/
def summarizeOutput (p : List Char → Option Report) (stdout : List Char) : Report :=
  match parseAttempt p stdout with
  | some r => r
  | none => fallbackReport stdout

/-! ### Run history store (`server.js:331-340` and `server.js:632-642`) -/

/-- The per-project results file content: `{runs, lastRun}`. -/
structure HistoryData (α : Type) where
  runs : List α
  lastRun : Option α
deriving DecidableEq, Repr

/-- The append performed identically by the upload endpoint
(`server.js:331-334`) and by `runTestsForProject` (`server.js:633-636`):
`runs.unshift(run); runs = runs.slice(0, 20); lastRun = run`. -/
def appendRun {α : Type} (run : α) (d : HistoryData α) : HistoryData α :=
  { runs := (run :: d.runs).take 20
    lastRun := some run }

/-! ### Process runner promise settlement (`server.js:429-434, 525-531`) -/

/-- The `close` handler `resolve({ stdout, exitCode: code || 0 })`
(`server.js:525-527`).  `code` is `null` (here `none`) when the child was
killed by a signal — in particular when the 5-minute `timeout` fires and the
runner kills the child with SIGTERM; `null || 0` and `0 || 0` are `0`. -/
def closeHandlerExitCode (code : Option Int) : Int :=
  match code with
  | some c => c
  | none => 0

/-- The `error` handler `resolve({ stdout: err.message, exitCode: 1 })`
(`server.js:529-531`), used on spawn/launch failure. -/
def errorHandlerExitCode : Int := 1

/-! ### Orchestration broadcasts (`server.js:252-287, 399-650`)

`runTestsForProject` always broadcasts `tests:started`, then some number of
`tests:progress` events from the parser, then — after the history write at
`server.js:639` succeeds — exactly one `tests:completed`.  The history write
is the one `await` in the function whose rejection is not caught locally
(`getTestCount` and the spawn promise always resolve, and the report parse
and history read are inside try/catch), so a run is modelled by its number
of progress events plus a flag saying whether that write succeeded; when it
fails the promise rejects after `tests:started` and the progress events,
with no final broadcast from `runTestsForProject` itself. -/

inductive Event where
  | started
  | progress
  | completed
  | errored
deriving DecidableEq, Repr

/-- Broadcasts emitted by one `runTestsForProject` call, plus whether its
promise resolved (`true`) or rejected at the history write (`false`). -/
def runBroadcasts (progressCount : Nat) (historyWriteOk : Bool) : List Event × Bool :=
  (Event.started ::
     (List.replicate progressCount Event.progress ++
       (if historyWriteOk then [Event.completed] else [])),
   historyWriteOk)

/-- `/api/run/:projectId` (`server.js:256-259`): fire-and-forget call with
`.catch(err => ... broadcast('tests:error', ...))`. -/
def runSingleEndpoint (progressCount : Nat) (historyWriteOk : Bool) : List Event :=
  let r := runBroadcasts progressCount historyWriteOk
  r.1 ++ (if r.2 then [] else [Event.errored])

/-- `/api/run-all` (`server.js:280-287`): sequential loop, each run in
`try { await ... } catch (err) { console.error(...) }` — the catch only
logs, broadcasting nothing, and the loop continues. -/
def runAllEndpoint : List (Nat × Bool) → List Event
  | [] => []
  | r :: rest => (runBroadcasts r.1 r.2).1 ++ runAllEndpoint rest

/-- Events that terminate a run from the viewer's perspective. -/
def isFinalEvent : Event → Bool
  | Event.completed => true
  | Event.errored => true
  | _ => false

/-- Number of `tests:completed`/`tests:error` broadcasts in a trace. -/
def finalCount (evs : List Event) : Nat :=
  evs.countP isFinalEvent

/-! ### Input sanitizers (`server.js:84-96`) and spawn arguments -/

/-- The character class kept by `sanitizeGrep`:
`[a-zA-Z0-9\s@_-]` (the complement is removed). -/
def isGrepChar (c : Char) : Bool :=
  isAsciiLetter c || isDigit09 c || isJsSpace c || c = '@' || c = '_' || c = '-'

/-- `sanitizeGrep` (`server.js:91-96`).  The argument is the request's grep
value restricted to its string/absent cases; `none` and the empty string are
falsy and yield `null`.  Otherwise disallowed characters are removed and the
result is kept only when its length is in `1..100`. -/
def sanitizeGrep (grep : Option String) : Option String :=
  match grep with
  | none => none
  | some s =>
    if s = "" then none
    else
      let sanitized := s.data.filter isGrepChar
      if 0 < sanitized.length ∧ sanitized.length ≤ 100 then
        some (String.mk sanitized)
      else none

/-- Spawn argument construction for the test run (`server.js:416-419`):
`['playwright', 'test', '--reporter=line,json']`, plus
`['--grep', grep]` only when the (sanitized) grep is non-null. -/
def buildTestArgs (grep : Option String) : List String :=
  ["playwright", "test", "--reporter=line,json"] ++
    (match grep with
     | none => []
     | some g => ["--grep", g])

/-- Shell metacharacters (outside whitespace): if any of these reached the
spawned command line it could alter shell parsing.  `sanitizeGrep` must
never let one through. -/
def isShellMeta (c : Char) : Bool :=
  c = ';' || c = '&' || c = '|' || c = '$' || c = '\x60' || c = '(' || c = ')' ||
  c = '<' || c = '>' || c = '\\' || c = '\x22' || c = '\x27' || c = '*' ||
  c = '?' || c = '[' || c = ']' || c = '\x7b' || c = '\x7d' || c = '~' ||
  c = '#' || c = '!'

/-- The character class of `isValidProjectId`: `[a-zA-Z0-9_-]`. -/
def isIdChar (c : Char) : Bool :=
  isAsciiLetter c || isDigit09 c || c = '_' || c = '-'

/-- `isValidProjectId` (`server.js:84-88`): `null`/non-string and the empty
string are rejected by the falsy check, then `/^[a-zA-Z0-9_-]+$/.test(id)`
(anchored, no multiline flag: every character must be in the class). -/
def isValidProjectId (projectId : Option String) : Bool :=
  match projectId with
  | none => false
  | some s =>
    if s.data = [] then false
    else s.data.all isIdChar

/-- The file-name component `${projectId}.json` joined under `RESULTS_DIR`
(`server.js:112`). -/
def resultsFileName (projectId : String) : List Char :=
  projectId.data ++ ".json".data

/-- Occurrence of a `..` (parent-directory) sequence in a file name. -/
def hasDotDot : List Char → Bool
  | [] => false
  | [_] => false
  | a :: b :: rest => (a = '.' && b = '.') || hasDotDot (b :: rest)

/-- The relation `passed = completed - failed - skipped` over the current
counters (computed in `Int`, as JS subtraction can go negative). -/
def passedInv (st : ParserState) : Prop :=
  st.progress.passed =
    (st.progress.completed : Int) - (st.progress.failed : Int) -
      (st.progress.skipped : Int)

/-! ## Properties of the progress parser -/

lemma stepFailure_completed (st : ParserState) (c : List Char) :
    (stepFailure st c).progress.completed = st.progress.completed := by
  unfold stepFailure
  split
  · split <;> rfl
  · rfl

lemma stepFailure_skipped (st : ParserState) (c : List Char) :
    (stepFailure st c).progress.skipped = st.progress.skipped := by
  unfold stepFailure
  split
  · split <;> rfl
  · rfl

lemma stepFailure_seen (st : ParserState) (c : List Char) :
    (stepFailure st c).seenSkippedTests = st.seenSkippedTests := by
  unfold stepFailure
  split
  · split <;> rfl
  · rfl

lemma stepFailure_failed_le (st : ParserState) (c : List Char) :
    st.progress.failed ≤ (stepFailure st c).progress.failed := by
  unfold stepFailure
  split
  · split
    · next h => exact Nat.le_of_lt h
    · exact Nat.le_refl _
  · exact Nat.le_refl _

lemma stepAggSkip_completed (st : ParserState) (c : List Char) :
    (stepAggSkip st c).progress.completed = st.progress.completed := by
  unfold stepAggSkip
  split
  · split <;> rfl
  · rfl

lemma stepAggSkip_failed (st : ParserState) (c : List Char) :
    (stepAggSkip st c).progress.failed = st.progress.failed := by
  unfold stepAggSkip
  split
  · split <;> rfl
  · rfl

lemma stepAggSkip_seen (st : ParserState) (c : List Char) :
    (stepAggSkip st c).seenSkippedTests = st.seenSkippedTests := by
  unfold stepAggSkip
  split
  · split <;> rfl
  · rfl

lemma stepIndivSkip_completed (st : ParserState) (c : List Char) :
    (stepIndivSkip st c).progress.completed = st.progress.completed := by
  unfold stepIndivSkip
  split
  · split
    · split <;> rfl
    · rfl
  · rfl

lemma stepIndivSkip_failed (st : ParserState) (c : List Char) :
    (stepIndivSkip st c).progress.failed = st.progress.failed := by
  unfold stepIndivSkip
  split
  · split
    · split <;> rfl
    · rfl
  · rfl

lemma stepProgress_failed (st : ParserState) (c : List Char) :
    (stepProgress st c).progress.failed = st.progress.failed := by
  unfold stepProgress
  split
  · split <;> rfl
  · rfl

lemma stepProgress_skipped (st : ParserState) (c : List Char) :
    (stepProgress st c).progress.skipped = st.progress.skipped := by
  unfold stepProgress
  split
  · split <;> rfl
  · rfl

lemma stepProgress_seen (st : ParserState) (c : List Char) :
    (stepProgress st c).seenSkippedTests = st.seenSkippedTests := by
  unfold stepProgress
  split
  · split <;> rfl
  · rfl

lemma stepProgress_completed_le (st : ParserState) (c : List Char) :
    st.progress.completed ≤ (stepProgress st c).progress.completed := by
  unfold stepProgress
  split
  · split
    · next h => exact Nat.le_of_lt h
    · exact Nat.le_refl _
  · exact Nat.le_refl _

lemma processLine_completed_le (st : ParserState) (line : List Char) :
    st.progress.completed ≤ (processLine st line).progress.completed := by
  unfold processLine processCleanLine
  calc st.progress.completed
      = (stepFailure st (stripAnsi line)).progress.completed :=
        (stepFailure_completed st _).symm
    _ = (stepAggSkip (stepFailure st (stripAnsi line)) (stripAnsi line)).progress.completed :=
        (stepAggSkip_completed _ _).symm
    _ = (stepIndivSkip (stepAggSkip (stepFailure st (stripAnsi line)) (stripAnsi line))
          (stripAnsi line)).progress.completed :=
        (stepIndivSkip_completed _ _).symm
    _ ≤ _ := stepProgress_completed_le _ _

lemma processLine_failed_le (st : ParserState) (line : List Char) :
    st.progress.failed ≤ (processLine st line).progress.failed := by
  unfold processLine processCleanLine
  rw [stepProgress_failed, stepIndivSkip_failed, stepAggSkip_failed]
  exact stepFailure_failed_le st _

lemma foldl_processLine_completed_le :
    ∀ (lines : List (List Char)) (st : ParserState),
      st.progress.completed ≤ (lines.foldl processLine st).progress.completed := by
  intro lines
  induction lines with
  | nil => intro st; exact Nat.le_refl _
  | cons l ls ih =>
      intro st
      exact Nat.le_trans (processLine_completed_le st l) (ih (processLine st l))

lemma foldl_processLine_failed_le :
    ∀ (lines : List (List Char)) (st : ParserState),
      st.progress.failed ≤ (lines.foldl processLine st).progress.failed := by
  intro lines
  induction lines with
  | nil => intro st; exact Nat.le_refl _
  | cons l ls ih =>
      intro st
      exact Nat.le_trans (processLine_failed_le st l) (ih (processLine st l))

lemma feedChunk_completed_le (p : ParserState × List Char) (chunk : List Char) :
    p.1.progress.completed ≤ (feedChunk p chunk).1.progress.completed := by
  obtain ⟨st, buf⟩ := p
  exact foldl_processLine_completed_le _ st

lemma feedChunk_failed_le (p : ParserState × List Char) (chunk : List Char) :
    p.1.progress.failed ≤ (feedChunk p chunk).1.progress.failed := by
  obtain ⟨st, buf⟩ := p
  exact foldl_processLine_failed_le _ st

/-- C1 (amended): over any sequence of processed lines — and hence over any
sequence of stdout chunks fed through the buffering `data` handler — the
`completed` and `failed` counters are non-decreasing.  (The claim's further
assertion that `skipped` is also non-decreasing is refuted by
`skipped_counter_regression`: an individual-skip marker for a new ordinal
resets `skipped` to the dedupe-set size, below a previously adopted
aggregate-skip count.) -/
theorem completed_failed_monotone :
    (∀ (st : ParserState) (line : List Char),
        st.progress.completed ≤ (processLine st line).progress.completed ∧
        st.progress.failed ≤ (processLine st line).progress.failed) ∧
    (∀ (chunks : List (List Char)) (p : ParserState × List Char),
        p.1.progress.completed ≤ (chunks.foldl feedChunk p).1.progress.completed ∧
        p.1.progress.failed ≤ (chunks.foldl feedChunk p).1.progress.failed) := by
  constructor
  · intro st line
    exact ⟨processLine_completed_le st line, processLine_failed_le st line⟩
  · intro chunks
    induction chunks with
    | nil => intro p; exact ⟨Nat.le_refl _, Nat.le_refl _⟩
    | cons ch chs ih =>
        intro p
        refine ⟨Nat.le_trans (feedChunk_completed_le p ch) (ih (feedChunk p ch)).1, ?_⟩
        exact Nat.le_trans (feedChunk_failed_le p ch) (ih (feedChunk p ch)).2

/-- C1 counterexample: feeding the chunk `"3 skipped\n"` and then the chunk
`"[1/10] -  [chromium] › t\n"` drives the `skipped` counter from 3 back down
to 1 — the counter regresses across processed lines, refuting the claim that
`skipped` is non-decreasing. -/
theorem skipped_counter_regression :
    (feedChunk (initParserState, []) "3 skipped\n".data).1.progress.skipped = 3 ∧
    (feedChunk (feedChunk (initParserState, []) "3 skipped\n".data)
        "[1/10] -  [chromium] › t\n".data).1.progress.skipped = 1 := by
  constructor <;> rfl

lemma stepFailure_id_or_inv (st : ParserState) (c : List Char) :
    stepFailure st c = st ∨ passedInv (stepFailure st c) := by
  unfold stepFailure
  split
  · split
    · right; unfold passedInv; rfl
    · left; rfl
  · left; rfl

lemma stepAggSkip_id_or_inv (st : ParserState) (c : List Char) :
    stepAggSkip st c = st ∨ passedInv (stepAggSkip st c) := by
  unfold stepAggSkip
  split
  · split
    · right; unfold passedInv; rfl
    · left; rfl
  · left; rfl

lemma stepIndivSkip_id_or_inv (st : ParserState) (c : List Char) :
    stepIndivSkip st c = st ∨ passedInv (stepIndivSkip st c) := by
  unfold stepIndivSkip
  split
  · split
    · split
      · left; rfl
      · right; unfold passedInv; rfl
    · left; rfl
  · left; rfl

lemma stepProgress_id_or_inv (st : ParserState) (c : List Char) :
    stepProgress st c = st ∨ passedInv (stepProgress st c) := by
  unfold stepProgress
  split
  · split
    · right; unfold passedInv; rfl
    · left; rfl
  · left; rfl

lemma processLine_id_or_inv (st : ParserState) (line : List Char) :
    processLine st line = st ∨ passedInv (processLine st line) := by
  unfold processLine processCleanLine
  rcases stepProgress_id_or_inv
      (stepIndivSkip (stepAggSkip (stepFailure st (stripAnsi line)) (stripAnsi line))
        (stripAnsi line)) (stripAnsi line) with h4 | h4
  · rw [h4]
    rcases stepIndivSkip_id_or_inv
        (stepAggSkip (stepFailure st (stripAnsi line)) (stripAnsi line))
        (stripAnsi line) with h3 | h3
    · rw [h3]
      rcases stepAggSkip_id_or_inv (stepFailure st (stripAnsi line))
          (stripAnsi line) with h2 | h2
      · rw [h2]
        rcases stepFailure_id_or_inv st (stripAnsi line) with h1 | h1
        · left; exact h1
        · right; exact h1
      · right; exact h2
    · right; exact h3
  · right; exact h4

lemma processLine_preserves_inv (st : ParserState) (line : List Char)
    (h : passedInv st) : passedInv (processLine st line) := by
  rcases processLine_id_or_inv st line with h' | h'
  · rw [h']; exact h
  · exact h'

/-- C5: after every processed line the relation
`passed = completed - failed - skipped` holds again: every counter-mutating
branch recomputes `passed`, so a line either leaves the whole parser state
unchanged or re-establishes the relation; consequently the relation holds
after every line of every run started from the initial counters. -/
theorem passed_recomputed_every_mutation :
    (∀ (st : ParserState) (line : List Char),
        processLine st line = st ∨ passedInv (processLine st line)) ∧
    (∀ lines : List (List Char),
        passedInv (lines.foldl processLine initParserState)) := by
  constructor
  · exact processLine_id_or_inv
  · intro lines
    have : ∀ (ls : List (List Char)) (st : ParserState), passedInv st →
        passedInv (ls.foldl processLine st) := by
      intro ls
      induction ls with
      | nil => intro st h; exact h
      | cons l t ih =>
          intro st h
          exact ih (processLine st l) (processLine_preserves_inv st l h)
    exact this lines initParserState (by unfold passedInv; rfl)

/-- C6 (amended): on a line carrying an individual-skip marker for ordinal
`n` — provided the same line does not also carry an aggregate-skip count
exceeding the current `skipped` value — the dedupe set guarantees that
`skipped` becomes `|seen| + 1` on the first occurrence of `n` and is left
unchanged (with an unchanged dedupe set) on a repeated occurrence. -/
theorem indiv_skip_dedup (st : ParserState) (line : List Char) (n total : Nat)
    (hpm : progressPair (stripAnsi line) = some (n, total))
    (hskip : isSkipLine (stripAnsi line) = true)
    (hagg : (aggSkipNum (stripAnsi line)).getD 0 ≤ st.progress.skipped) :
    (processLine st line).progress.skipped =
      (if n ∈ st.seenSkippedTests then st.progress.skipped
       else st.seenSkippedTests.length + 1) ∧
    (processLine st line).seenSkippedTests =
      (if n ∈ st.seenSkippedTests then st.seenSkippedTests
       else st.seenSkippedTests ++ [n]) := by
  unfold processLine processCleanLine
  have hs2 : stepAggSkip (stepFailure st (stripAnsi line)) (stripAnsi line) =
      stepFailure st (stripAnsi line) := by
    unfold stepAggSkip
    cases h : aggSkipNum (stripAnsi line) with
    | none => rfl
    | some k =>
        rw [h] at hagg
        simp only [Option.getD_some] at hagg
        rw [stepFailure_skipped] at *
        simp only [stepFailure_skipped]
        rw [if_neg]
        omega
  rw [hs2]
  have hsk : (stepFailure st (stripAnsi line)).progress.skipped =
      st.progress.skipped := stepFailure_skipped st _
  have hsn : (stepFailure st (stripAnsi line)).seenSkippedTests =
      st.seenSkippedTests := stepFailure_seen st _
  unfold stepIndivSkip
  rw [hskip, hpm]
  simp only [if_true]
  by_cases hmem : n ∈ st.seenSkippedTests
  · rw [if_pos (hsn ▸ hmem), if_pos hmem, if_pos hmem]
    rw [stepProgress_skipped, stepProgress_seen, hsk, hsn]
    exact ⟨rfl, rfl⟩
  · rw [if_neg (hsn ▸ hmem), if_neg hmem, if_neg hmem]
    rw [stepProgress_skipped, stepProgress_seen]
    simp [hsn]

/-- C6 witness: a state that has already counted ordinal 2 as skipped, fed
the pure individual-skip line `"[2/10] -  [chromium] › t"`, leaves the
skipped counter at 1. -/
theorem indiv_skip_dedup_check :
    (processLine ⟨⟨0, 0, 1, 1⟩, [2]⟩ "[2/10] -  [chromium] › t".data).progress.skipped
      = 1 := by
  have h := indiv_skip_dedup ⟨⟨0, 0, 1, 1⟩, [2]⟩ "[2/10] -  [chromium] › t".data 2 10
    (by decide) (by decide) (by decide)
  simpa using h.1

/-- C6 counterexample: the line `"[3/10] extra 5 skipped"` carries an
individual-skip marker with ordinal 3 (and an aggregate count).  Processing
it twice from the initial state: the first occurrence sets `skipped` to 1,
and the second occurrence of the same ordinal changes `skipped` to 5 —
refuting the claim that a repeated ordinal always leaves the counter
unchanged. -/
theorem indiv_skip_second_occurrence_changes :
    isSkipLine (stripAnsi "[3/10] extra 5 skipped".data) = true ∧
    progressPair (stripAnsi "[3/10] extra 5 skipped".data) = some (3, 10) ∧
    (processLine initParserState "[3/10] extra 5 skipped".data).progress.skipped = 1 ∧
    (processLine initParserState "[3/10] extra 5 skipped".data).seenSkippedTests = [3] ∧
    (processLine (processLine initParserState "[3/10] extra 5 skipped".data)
        "[3/10] extra 5 skipped".data).progress.skipped = 5 := by
  refine ⟨rfl, rfl, rfl, rfl, rfl⟩

/-! ## Properties of the result summarizer -/

/-- C2: when the parsed report has a top-level `stats` block whose `expected`
field is a number, the final stats are exactly
`total = expected + unexpected + skipped`, `passed = expected`,
`failed = unexpected`, `skipped = skipped` (missing fields default to 0),
independently of whatever leaf-level test statuses the suite tree holds. -/
theorem summary_stats_priority (ps : PWStats) (suites : List PWSuite)
    (errors : List (List Char)) (dur e : Nat) (h : ps.expected = some e) :
    deriveStats ⟨some ps, suites, errors⟩ dur =
      ⟨e + ps.unexpected.getD 0 + ps.skipped.getD 0, e, ps.unexpected.getD 0,
        ps.skipped.getD 0, dur⟩ := by
  obtain ⟨pe, pu, pk⟩ := ps
  have h' : pe = some e := h
  subst h'
  rfl

/-- C2 witness: a report with `{expected: 5, unexpected: 1, skipped: 2}` and
a suite tree whose two leaf tests would count differently resolves to
`{total: 8, passed: 5, failed: 1, skipped: 2}`. -/
theorem summary_stats_priority_check :
    deriveStats
      ⟨some ⟨some 5, some 1, some 2⟩,
        [PWSuite.mk [⟨[⟨[⟨"passed"⟩]⟩, ⟨[⟨"passed"⟩]⟩]⟩] []], []⟩ 7 =
      ⟨8, 5, 1, 2, 7⟩ := by
  have h := summary_stats_priority ⟨some 5, some 1, some 2⟩
    [PWSuite.mk [⟨[⟨[⟨"passed"⟩]⟩, ⟨[⟨"passed"⟩]⟩]⟩] []] [] 7 5 rfl
  simpa using h

lemma append_eq_nil_left {l t : List Char} (h : l ++ t = []) : l = [] := by
  cases l with
  | nil => rfl
  | cons a r => cases h

/-- C7 (amended): whenever the JSON-parse attempt fails, the summarizer
synthesizes (without throwing) a report with an empty suite list and a
single error entry of length at most 500; when the raw output is non-empty
that entry is its at-most-500-character prefix, and only for empty output it
is the fixed message `Failed to parse test output`. -/
theorem parse_failure_fallback (p : List Char → Option Report) (stdout : List Char)
    (h : parseAttempt p stdout = none) :
    (summarizeOutput p stdout).suites = [] ∧
    (summarizeOutput p stdout).errors.length = 1 ∧
    (∀ e ∈ (summarizeOutput p stdout).errors, e.length ≤ 500) ∧
    (stdout ≠ [] →
      (summarizeOutput p stdout).errors = [stdout.take 500] ∧
      stdout.take 500 <+: stdout) := by
  have hs : summarizeOutput p stdout = fallbackReport stdout := by
    unfold summarizeOutput
    rw [h]
  rw [hs]
  unfold fallbackReport
  refine ⟨rfl, rfl, ?_, ?_⟩
  · intro e he
    simp only [List.mem_singleton] at he
    subst he
    split
    · decide
    · rw [List.length_take]
      exact min_le_left _ _
  · intro hne
    have ht : stdout.take 500 ≠ [] := by
      intro hh
      cases stdout with
      | nil => exact hne rfl
      | cons a r => exact absurd hh (by simp [List.take])
    rw [if_neg ht]
    exact ⟨rfl, ⟨stdout.drop 500, List.take_append_drop 500 stdout⟩⟩

/-- C7 witness: unparseable non-empty output (no `{` present) yields the
single truncated-prefix error entry. -/
theorem parse_failure_fallback_check :
    (summarizeOutput (fun _ => none) "no json here".data).errors =
      ["no json here".data.take 500] ∧
    "no json here".data.take 500 <+: "no json here".data := by
  have h := parse_failure_fallback (fun _ => none) "no json here".data rfl
  exact h.2.2.2 (by decide)

/-- C7 counterexample: for the empty combined output — on which JSON parsing
fails — the synthesized error entry is the fixed message
`Failed to parse test output`, which is not a prefix of the raw output,
refuting the claim that the error entry always holds a prefix of the raw
output. -/
theorem empty_output_error_message :
    parseAttempt (fun _ => none) ([] : List Char) = none ∧
    (summarizeOutput (fun _ => none) ([] : List Char)).errors =
      ["Failed to parse test output".data] ∧
    ¬ ("Failed to parse test output".data <+: ([] : List Char)) := by
  refine ⟨rfl, rfl, ?_⟩
  intro h
  obtain ⟨t, ht⟩ := h
  exact absurd (append_eq_nil_left ht) (by decide)

/-! ## Properties of the run history store -/

/-- C3: after every append (performed identically by `runTestsForProject`
and by the upload endpoint), for every prior history content: the new run
sits at the front of the stored list with the prior runs following in order
truncated to 19 (so the oldest entries beyond the cap are evicted), the list
never exceeds 20 entries, and `lastRun` equals the newest (front) entry. -/
theorem history_append_bounded {α : Type} (run : α) (d : HistoryData α) :
    (appendRun run d).runs = run :: d.runs.take 19 ∧
    (appendRun run d).runs.length ≤ 20 ∧
    (appendRun run d).runs.head? = some run ∧
    (appendRun run d).lastRun = (appendRun run d).runs.head? := by
  have h1 : (appendRun run d).runs = run :: d.runs.take 19 := rfl
  refine ⟨h1, ?_, rfl, rfl⟩
  show ((run :: d.runs).take 20).length ≤ 20
  rw [List.length_take]
  exact min_le_left _ _

/-! ## Process runner exit codes -/

/-- C4: divergence witness.  When the 5-minute timeout kills the child, the
`close` event fires with `code = null` and the handler resolves
`exitCode = (null || 0) = 0` — not the non-zero code the claim requires —
while a launch failure (the `error` handler) does resolve with 1. -/
theorem timeout_close_exit_code_zero :
    closeHandlerExitCode none = 0 ∧
    closeHandlerExitCode (some 2) = 2 ∧
    errorHandlerExitCode = 1 :=
  ⟨rfl, rfl, rfl⟩

/-! ## Orchestration broadcasts -/

lemma countP_replicate_progress (n : Nat) :
    (List.replicate n Event.progress).countP isFinalEvent = 0 := by
  induction n with
  | zero => rfl
  | succ k ih =>
      rw [List.replicate_succ, List.countP_cons]
      simp [isFinalEvent, ih]

/-- C8 (amended): a run triggered through `/api/run/:projectId` always ends
with exactly one final broadcast (`tests:completed` when the run resolves,
`tests:error` from the endpoint's catch when it rejects).  In the
`/api/run-all` batch, a failing run is caught and does not abort the
remaining projects (the batch trace is the run's own trace followed by the
rest of the batch), but the catch only logs: a successful batch run emits
exactly one final broadcast while a failing one emits zero. -/
theorem final_broadcast_counts :
    (∀ (n : Nat) (ok : Bool), finalCount (runSingleEndpoint n ok) = 1) ∧
    (∀ (r : Nat × Bool) (rest : List (Nat × Bool)),
        runAllEndpoint (r :: rest) = (runBroadcasts r.1 r.2).1 ++ runAllEndpoint rest) ∧
    (∀ n : Nat, finalCount (runBroadcasts n true).1 = 1) ∧
    (∀ n : Nat, finalCount (runBroadcasts n false).1 = 0) := by
  refine ⟨?_, ?_, ?_, ?_⟩
  · intro n ok
    cases ok <;>
      simp [runSingleEndpoint, runBroadcasts, finalCount, List.countP_cons,
        List.countP_append, isFinalEvent, countP_replicate_progress]
  · intro r rest
    rfl
  · intro n
    simp [runBroadcasts, finalCount, List.countP_cons, List.countP_append,
      isFinalEvent, countP_replicate_progress]
  · intro n
    simp [runBroadcasts, finalCount, List.countP_cons, List.countP_append,
      isFinalEvent, countP_replicate_progress]

/-- C8 counterexample: a `/api/run-all` batch containing one project whose
history write fails broadcasts `tests:started` but ends with zero final
broadcasts — neither `tests:completed` nor `tests:error` — refuting the
claim that every run in the batch ends with exactly one. -/
theorem run_all_zero_final_broadcasts :
    runAllEndpoint [(0, false)] = [Event.started] ∧
    finalCount (runAllEndpoint [(0, false)]) = 0 := by
  refine ⟨rfl, rfl⟩

/-! ## Input sanitizers -/

lemma grepChar_not_shellMeta (c : Char) (hc : isGrepChar c = true) :
    isShellMeta c = false := by
  by_contra hm
  rw [Bool.not_eq_false] at hm
  unfold isShellMeta at hm
  simp only [Bool.or_eq_true, decide_eq_true_eq] at hm
  casesm* _ ∨ _
  all_goals subst_vars
  all_goals exact absurd hc (by decide)

/-- C9: for every grep input, the sanitized filter forwarded to spawn
argument construction is either `null` — in which case the argument list is
just the base list with no `--grep` — or a non-empty string of at most 100
characters drawn from letters, digits, whitespace, `@`, `_`, `-`, and in
particular free of shell metacharacters. -/
theorem sanitizeGrep_safe :
    ∀ g : Option String,
      (sanitizeGrep g = none →
        buildTestArgs (sanitizeGrep g) = ["playwright", "test", "--reporter=line,json"]) ∧
      (∀ t : String, sanitizeGrep g = some t →
        t.data ≠ [] ∧ t.data.length ≤ 100 ∧
        ∀ c ∈ t.data, isGrepChar c = true ∧ isShellMeta c = false) := by
  intro g
  constructor
  · intro h
    rw [h]
    rfl
  · intro t ht
    cases g with
    | none => cases ht
    | some s =>
        have ht' : (if s = "" then (none : Option String)
            else if 0 < (s.data.filter isGrepChar).length ∧
                (s.data.filter isGrepChar).length ≤ 100 then
              some (String.mk (s.data.filter isGrepChar))
            else none) = some t := ht
        by_cases hs : s = ""
        · rw [if_pos hs] at ht'; cases ht'
        · rw [if_neg hs] at ht'
          by_cases hl : 0 < (s.data.filter isGrepChar).length ∧
              (s.data.filter isGrepChar).length ≤ 100
          · rw [if_pos hl] at ht'
            injection ht' with ht
            subst ht
            refine ⟨?_, hl.2, ?_⟩
            · intro hnil
              rw [show (String.mk (s.data.filter isGrepChar)).data =
                    s.data.filter isGrepChar from rfl] at hnil
              rw [hnil] at hl
              exact absurd hl.1 (by decide)
            · intro c hcmem
              have hc : isGrepChar c = true := (List.mem_filter.mp hcmem).2
              exact ⟨hc, grepChar_not_shellMeta c hc⟩
          · rw [if_neg hl] at ht'; cases ht'

/-- C9 witness: a realistic tag filter passes through unchanged and its
characters are all in the safe class with no shell metacharacters. -/
theorem sanitizeGrep_safe_check :
    "e2e @smoke_test-1".data ≠ [] ∧ "e2e @smoke_test-1".data.length ≤ 100 ∧
    ∀ c ∈ "e2e @smoke_test-1".data, isGrepChar c = true ∧ isShellMeta c = false :=
  (sanitizeGrep_safe (some "e2e @smoke_test-1")).2 "e2e @smoke_test-1" (by decide)

lemma hasDotDot_append_json :
    ∀ l : List Char, (∀ c ∈ l, c ≠ '.') → hasDotDot (l ++ ".json".data) = false := by
  intro l
  induction l with
  | nil => intro _; decide
  | cons a t ih =>
      intro h
      have ha : a ≠ '.' := h a (by simp)
      cases t with
      | nil =>
          show hasDotDot (a :: '.' :: "json".data) = false
          simp [hasDotDot, ha]
      | cons b t2 =>
          have hrest : ∀ c ∈ b :: t2, c ≠ '.' := fun c hc => h c (by simp [hc])
          have hb := ih hrest
          show hasDotDot (a :: b :: (t2 ++ ".json".data)) = false
          simp [hasDotDot, ha]
          exact hb

/-- C10: `isValidProjectId` accepts exactly the non-empty strings all of
whose characters are in `[a-zA-Z0-9_-]` (rejecting absent/non-string values
and the empty string); consequently the results file name
`<id>.json` built from an accepted id contains no path separator and no
`..` segment, so the per-project history reads and writes stay inside the
results directory. -/
theorem isValidProjectId_charset :
    ∀ pid : Option String,
      (isValidProjectId pid = true ↔
        ∃ s : String, pid = some s ∧ s.data ≠ [] ∧ ∀ c ∈ s.data, isIdChar c = true) ∧
      (∀ s : String, pid = some s → isValidProjectId pid = true →
        '/' ∉ resultsFileName s ∧ '\\' ∉ resultsFileName s ∧
        hasDotDot (resultsFileName s) = false) := by
  have hall_of_valid : ∀ s : String, isValidProjectId (some s) = true →
      ∀ c ∈ s.data, isIdChar c = true := by
    intro s hv c hc
    have hv' : (if s.data = [] then false else s.data.all isIdChar) = true := hv
    by_cases hnil : s.data = []
    · rw [if_pos hnil] at hv'; cases hv'
    · rw [if_neg hnil] at hv'
      exact List.all_eq_true.mp hv' c hc
  intro pid
  constructor
  · cases pid with
    | none =>
        constructor
        · intro h; cases h
        · rintro ⟨s, hs, _, _⟩; cases hs
    | some s =>
        constructor
        · intro hv
          refine ⟨s, rfl, ?_, hall_of_valid s hv⟩
          intro hnil
          have hv' : (if s.data = [] then false else s.data.all isIdChar) = true := hv
          rw [if_pos hnil] at hv'
          cases hv'
        · rintro ⟨s', hs', hne, hall⟩
          injection hs' with e
          subst e
          show (if s.data = [] then false else s.data.all isIdChar) = true
          rw [if_neg hne]
          exact List.all_eq_true.mpr hall
  · rintro s rfl hvalid
    have hall := hall_of_valid s hvalid
    refine ⟨?_, ?_, ?_⟩
    · intro hm
      rcases List.mem_append.mp hm with hm | hm
      · exact absurd (hall _ hm) (by decide)
      · exact absurd hm (by decide)
    · intro hm
      rcases List.mem_append.mp hm with hm | hm
      · exact absurd (hall _ hm) (by decide)
      · exact absurd hm (by decide)
    · exact hasDotDot_append_json s.data
        (fun c hc hd => absurd (hall c hc) (by rw [hd]; decide))

/-- C10 witness: a concrete accepted id yields a separator-free,
`..`-free results file name. -/
theorem isValidProjectId_charset_check :
    '/' ∉ resultsFileName "shopping-list" ∧ '\\' ∉ resultsFileName "shopping-list" ∧
    hasDotDot (resultsFileName "shopping-list") = false :=
  (isValidProjectId_charset (some "shopping-list")).2 "shopping-list" rfl (by decide)

end TD
